import Mathlib

/-!
# Verification of the CSV data-migration pipeline

Shallow embedding of the job queue (`src/queue/mongo.queue.js`), the job
model (`src/models/Job.js`), the upload route (`src/routes/upload.route.js`),
the chunked CSV worker (`worker.js`, embedded in `src/README.md`) and the
progress poller (`src/progress.js`).

Conventions of the embedding:
* Mongo documents become Lean structures; the job store is a `List Job`
  and `findOne`/`findByIdAndUpdate` become list search/map.
* Dates are `Nat` timestamps supplied by the caller.
* CSV rows are opaque (`Nat`); the destination store's bulk-insert result
  is an `InsertOutcome` supplied per chunk index, mirroring the three
  ways `RecordModel.insertMany` can resolve (success, duplicate-key
  error with code 11000, other error).
* The worker's wave-based chunk concurrency (`maxConcurrency` chunks per
  `Promise.all` wave) is linearised: chunks run in index order, and each
  chunk re-reads the job document before deciding to skip, exactly as the
  source does.
* Thrown JS exceptions become `Except String`.
-/

inductive Status where
  | PENDING | RUNNING | COMPLETED | FAILED | PAUSED
deriving DecidableEq, Repr

inductive AuditAction where
  | UPLOAD | START | INSERT | SKIP | COMPLETE | FAILED | RETRY
  | SCHEDULED | SCHEDULED_ERROR | SCHEDULED_SYSTEM_ERROR
deriving DecidableEq, Repr

/-- One audit-log document (`src/models/AuditLog.js`); the `meta` object is
narrowed to the fields the queue and worker actually write. -/
structure AuditEntry where
  action : AuditAction
  jobId : Option Nat
  chunkIndex : Option Nat := none
  retryCount : Option Nat := none
  error : Option String := none
deriving DecidableEq, Repr

/-- A progress event `{jobId, percentage, message, ...}`; the message string
is elided, the claims constrain only the percentage. -/
structure ProgressEvent where
  jobId : Nat
  percentage : Nat
deriving DecidableEq, Repr

/-- A job document with the fields of `jobSchema` (`src/models/Job.js`).
`createdAt` comes from the schema's `timestamps: true`. -/
structure Job where
  id : Nat
  filename : String
  checksum : String
  status : Status
  processedRows : Nat
  totalRows : Nat
  totalChunks : Nat
  processedChunks : Nat
  filePath : String
  error : Option String
  lastProcessedChunk : Int
  retryCount : Nat
  maxRetries : Nat
  startedAt : Option Nat
  completedAt : Option Nat
  createdAt : Nat
deriving DecidableEq, Repr

/-- The shared mutable world: the Job collection, the append-only audit log,
the `RecordModel.insertMany` calls issued (chunk index, chunk size), and the
progress events emitted. -/
structure St where
  jobs : List Job
  audit : List AuditEntry
  insertCalls : List (Nat × Nat)
  events : List ProgressEvent
deriving DecidableEq, Repr

def findJob (jobs : List Job) (jobId : Nat) : Option Job :=
  jobs.find? (fun j => j.id == jobId)

def updateJob (jobs : List Job) (jobId : Nat) (f : Job → Job) : List Job :=
  jobs.map (fun j => if j.id == jobId then f j else j)

/-- `JobModel.create` in the upload route (`src/routes/upload.route.js`):
explicit fields `filename`, `checksum`, `status: 'PENDING'`,
`processedRows: 0`, `totalRows: 0`, `filePath`; every other field takes the
`jobSchema` default (`lastProcessedChunk: -1`, `retryCount: 0`,
`maxRetries: 3`, `totalChunks: 0`, `processedChunks: 0`, `error: null`,
no `startedAt`/`completedAt`). -/
def mkUploadJob (id : Nat) (filename checksum filePath : String)
    (createdAt : Nat) : Job :=
  { id := id, filename := filename, checksum := checksum, status := .PENDING,
    processedRows := 0, totalRows := 0, totalChunks := 0, processedChunks := 0,
    filePath := filePath, error := none, lastProcessedChunk := -1,
    retryCount := 0, maxRetries := 3, startedAt := none, completedAt := none,
    createdAt := createdAt }

/-! ## Queue operations (`src/queue/mongo.queue.js`) -/

/-- The `getNextJob` filter: `status ∈ {PENDING, RUNNING}` and
`retryCount < maxRetries` (the queue's `this.maxRetries`). -/
def eligible (maxRetries : Nat) (j : Job) : Bool :=
  (j.status == .PENDING || j.status == .RUNNING) && j.retryCount < maxRetries

/-- `findOne(...).sort({createdAt: 1})`: the eligible job with the least
`createdAt` (first such in list order on ties). -/
def selectNext (maxRetries : Nat) (jobs : List Job) : Option Job :=
  (jobs.filter (eligible maxRetries)).foldl
    (fun acc j =>
      match acc with
      | none => some j
      | some b => if j.createdAt < b.createdAt then some j else some b)
    none

/-- The update document of `getNextJob`'s `findOneAndUpdate`, applied to the
stored job `jj`; `j0` is the job return by the first `findOne`, from which
both the conditional and the preserved `startedAt` are taken:
`startedAt: job.status === 'PENDING' ? new Date() : job.startedAt`. -/
def claimUpdate (now : Nat) (j0 jj : Job) : Job :=
  { jj with status := .RUNNING,
            startedAt := if j0.status == .PENDING then some now else j0.startedAt }

/-- `getNextJob(queueName)`: select the oldest eligible job, conditionally
mark it RUNNING, record a START audit entry, return the updated job. -/
def getNextJob (maxRetries now : Nat) (st : St) : St × Option Job :=
  match selectNext maxRetries st.jobs with
  | none => (st, none)
  | some j0 =>
    if j0.status == .PENDING || j0.status == .RUNNING then
      ({ st with
          jobs := updateJob st.jobs j0.id (claimUpdate now j0),
          audit := st.audit ++ [{ action := .START, jobId := some j0.id }] },
       some (claimUpdate now j0 j0))
    else
      (st, none)

/-- `completeJob(jobId)`: set status COMPLETED and `completedAt`, then (if
the job existed) record a COMPLETE audit entry. -/
def completeJob (jobId now : Nat) (st : St) : St :=
  match findJob st.jobs jobId with
  | none => st
  | some _ =>
    { st with
        jobs := updateJob st.jobs jobId
          (fun j => { j with status := .COMPLETED, completedAt := some now }),
        audit := st.audit ++ [{ action := .COMPLETE, jobId := some jobId }] }

/-- `failJob(jobId, error)`: no-op when the job is absent; when
`retryCount < maxRetries`, increment it, reset status to PENDING and record
a RETRY entry; otherwise record a FAILED entry and set status FAILED with
`retryCount` unchanged. -/
def failJob (maxRetries : Nat) (jobId : Nat) (error : String) (st : St) : St :=
  match findJob st.jobs jobId with
  | none => st
  | some job =>
    if job.retryCount < maxRetries then
      { st with
          audit := st.audit ++
            [{ action := .RETRY, jobId := some jobId,
               retryCount := some (job.retryCount + 1), error := some error }],
          jobs := updateJob st.jobs jobId
            (fun j => { j with status := .PENDING, error := some error,
                               retryCount := job.retryCount + 1 }) }
    else
      { st with
          audit := st.audit ++
            [{ action := .FAILED, jobId := some jobId,
               retryCount := some job.retryCount, error := some error }],
          jobs := updateJob st.jobs jobId
            (fun j => { j with status := .FAILED, error := some error,
                               retryCount := job.retryCount }) }

/-! ## Chunked batch processor (`worker.js`, embedded in `src/README.md`) -/

/-- `splitCSVIntoChunks`' stream handler: push each row onto `currentChunk`;
once `currentChunk.length >= chunkSize`, emit it and start a fresh chunk; on
end, emit the trailing partial chunk if non-empty. `curLen` mirrors
`cur.length` so that the length test is a counter comparison. -/
def splitGo (chunkSize : Nat) : List Nat → List Nat → Nat → List (List Nat)
  | [], cur, curLen => if curLen > 0 then [cur] else []
  | r :: rs, cur, curLen =>
    if curLen + 1 ≥ chunkSize then (cur ++ [r]) :: splitGo chunkSize rs [] 0
    else splitGo chunkSize rs (cur ++ [r]) (curLen + 1)

def splitCSVIntoChunks (rows : List Nat) (chunkSize : Nat) : List (List Nat) :=
  splitGo chunkSize rows [] 0

/-- How one `RecordModel.insertMany(chunk, {ordered: false})` call resolves:
success with an inserted count, rejection with a duplicate-key error
(`error.code === 11000`), or rejection with any other error. -/
inductive InsertOutcome where
  | ok (insertedCount : Nat)
  | dupKey
  | err (msg : String)
deriving DecidableEq, Repr

/-- `processChunk(chunk, jobId, chunkIndex)`: empty chunks return at once;
otherwise issue the bulk insert and classify the outcome — INSERT audit on
success, SKIP audit on a duplicate-key error (still a success), FAILED audit
and a rethrow on any other error. -/
def processChunk (outcome : InsertOutcome) (jobId c n : Nat) (st : St) :
    St × Except String Unit :=
  if n == 0 then (st, .ok ())
  else
    let st1 : St := { st with insertCalls := st.insertCalls ++ [(c, n)] }
    match outcome with
    | .ok _ =>
      ({ st1 with audit := st1.audit ++
          [{ action := .INSERT, jobId := some jobId, chunkIndex := some c }] },
       .ok ())
    | .dupKey =>
      ({ st1 with audit := st1.audit ++
          [{ action := .SKIP, jobId := some jobId, chunkIndex := some c }] },
       .ok ())
    | .err m =>
      ({ st1 with audit := st1.audit ++
          [{ action := .FAILED, jobId := some jobId, chunkIndex := some c,
             error := some m }] },
       .error m)

/-- JavaScript `Math.round(100 * p / t)` for non-negative operands, computed
exactly: round-half-up of `100 * p / t`, i.e. `⌊(200p + t) / 2t⌋`. -/
def round100 (p t : Nat) : Nat := (200 * p + t) / (2 * t)

/-- The per-chunk progress update:
`{processedChunks: c+1, lastProcessedChunk: c, processedRows: min(totalRows, processedRows)}`. -/
def progressWrite (jobId c t pr : Nat) (st : St) : St :=
  { st with
      jobs := updateJob st.jobs jobId
        (fun j => { j with processedChunks := c + 1,
                           lastProcessedChunk := (c : Int),
                           processedRows := min t pr }) }

/-- The body launched for one chunk inside a wave: re-read the job document,
skip (but count the rows) when `lastProcessedChunk >= chunkIndex`, otherwise
process the chunk, advance the local row counter, persist progress and emit
a progress event. Returns the new local `processedRows`. A missing job
document would make the JS crash on `jobDoc.lastProcessedChunk`; that throw
is the `.error` case. -/
def chunkStep (outcome : InsertOutcome) (jobId t c : Nat) (chunk : List Nat)
    (pr : Nat) (st : St) : St × Except String Nat :=
  match findJob st.jobs jobId with
  | none => (st, .error "job not found")
  | some jobDoc =>
    if jobDoc.lastProcessedChunk ≥ (c : Int) then
      (st, .ok (pr + chunk.length))
    else
      match processChunk outcome jobId c chunk.length st with
      | (st1, .error m) => (st1, .error m)
      | (st1, .ok _) =>
        let pr1 := pr + chunk.length
        let st2 := progressWrite jobId c t pr1 st1
        ({ st2 with events := st2.events ++
            [{ jobId := jobId, percentage := min 100 (round100 pr1 t) }] },
         .ok pr1)

/-- The chunk loop of `processCSVFile`, linearised in chunk-index order
(waves of `maxConcurrency` chunks are run one chunk at a time; a rejected
chunk promise aborts the run). `c` is the index of the head chunk. -/
def processChunksLoop (outcomes : Nat → InsertOutcome) (jobId t : Nat) :
    Nat → List (List Nat) → Nat → St → St × Except String Nat
  | _, [], pr, st => (st, .ok pr)
  | c, chunk :: rest, pr, st =>
    match chunkStep (outcomes c) jobId t c chunk pr st with
    | (st1, .error m) => (st1, .error m)
    | (st1, .ok pr1) => processChunksLoop outcomes jobId t (c + 1) rest pr1 st1

/-- First write of `processCSVFile`: persist `totalRows` and status RUNNING. -/
def totalRowsWrite (jobId t : Nat) (st : St) : St :=
  { st with
      jobs := updateJob st.jobs jobId
        (fun j => { j with totalRows := t, status := .RUNNING }) }

/-- Second write of `processCSVFile`: persist `totalChunks`. -/
def totalChunksWrite (jobId n : Nat) (st : St) : St :=
  { st with
      jobs := updateJob st.jobs jobId
        (fun j => { j with totalChunks := n }) }

/-- Final write of `processCSVFile`: `processedRows = totalRows` and
status COMPLETED. -/
def completeWrite (jobId t : Nat) (st : St) : St :=
  { st with
      jobs := updateJob st.jobs jobId
        (fun j => { j with processedRows := t, status := .COMPLETED }) }

/-- `processCSVFile(filePath, jobId)`: count rows and persist
`totalRows` + status RUNNING, split into chunks and persist `totalChunks`,
run the chunk loop, then persist `processedRows = totalRows` +
status COMPLETED and emit the final 100% event. -/
def processCSVFile (outcomes : Nat → InsertOutcome) (rows : List Nat)
    (chunkSize : Nat) (jobId : Nat) (st : St) : St × Except String Unit :=
  let t := rows.length
  let st1 := totalRowsWrite jobId t st
  let chunks := splitCSVIntoChunks rows chunkSize
  let st2 := totalChunksWrite jobId chunks.length st1
  match processChunksLoop outcomes jobId t 0 chunks 0 st2 with
  | (st3, .error m) => (st3, .error m)
  | (st3, .ok _) =>
    let st4 := completeWrite jobId t st3
    ({ st4 with events := st4.events ++ [{ jobId := jobId, percentage := 100 }] },
     .ok ())

/-- The job-processing callback the worker hands to `startPolling`
(`CSVWorker.start`): when the source file is missing, record a FAILED audit
entry, write status FAILED with the error, and RETURN NORMALLY with a
`{status: 'failed'}` result; otherwise record a START entry and run
`processCSVFile`, recording a FAILED entry and rethrowing on error. The
filesystem is `fs : String → Option (List Nat)` (`none` = `!fs.existsSync`). -/
def workerProcess (fs : String → Option (List Nat))
    (outcomes : Nat → InsertOutcome) (chunkSize : Nat) (job : Job) (st : St) :
    St × Except String Unit :=
  match fs job.filePath with
  | none =>
    let st1 : St := { st with audit := st.audit ++
        [{ action := .FAILED, jobId := some job.id,
           error := some "File does not exist" }] }
    ({ st1 with
        jobs := updateJob st1.jobs job.id
          (fun j => { j with status := .FAILED,
                             error := some "File does not exist" }) },
     .ok ())
  | some rows =>
    let st1 : St := { st with audit := st.audit ++
        [{ action := .START, jobId := some job.id }] }
    match processCSVFile outcomes rows chunkSize job.id st1 with
    | (st2, .ok _) => (st2, .ok ())
    | (st2, .error m) =>
      ({ st2 with audit := st2.audit ++
          [{ action := .FAILED, jobId := some job.id, error := some m }] },
       .error m)

/-- One iteration of `startPolling`'s `poll` loop: claim the next job; if one
was claimed, run the processor callback and call `completeJob` when it
resolves, `failJob` when it rejects. -/
def pollStep (maxRetries : Nat) (fs : String → Option (List Nat))
    (outcomes : Nat → InsertOutcome) (chunkSize now : Nat) (st : St) : St :=
  match getNextJob maxRetries now st with
  | (st1, none) => st1
  | (st1, some job) =>
    match workerProcess fs outcomes chunkSize job st1 with
    | (st2, .ok _) => completeJob job.id now st2
    | (st2, .error m) => failJob maxRetries job.id m st2

/-! ## Progress poller (`src/progress.js`) -/

/-- The percentage computed by `ProgressTracker.startPolling`:
`totalRows > 0 ? min(100, round(100 * processedRows / totalRows)) : 0`. -/
def pollerPercentage (j : Job) : Nat :=
  if j.totalRows > 0 then min 100 (round100 j.processedRows j.totalRows) else 0

/-- One pass of the background progress poller: for every RUNNING or PENDING
job, re-derive and emit a progress event. -/
def pollerEvents (jobs : List Job) : List ProgressEvent :=
  (jobs.filter (fun j => j.status == .RUNNING || j.status == .PENDING)).map
    (fun j => { jobId := j.id, percentage := pollerPercentage j })

/-! ## Upload route (`src/routes/upload.route.js`) -/

/-- A multipart upload as multer hands it to the route: the stored-on-disk
name, the saved path and the file's bytes; `originalname` only influences
the generated extension and is irrelevant to the checksum. -/
structure UploadedFile where
  filename : String
  path : String
  content : List Nat
deriving DecidableEq, Repr

inductive UploadResp where
  | noFile
  | duplicate
  | created (jobId : Nat)
deriving DecidableEq, Repr

/-- `POST /upload`: reject when no file was sent; compute the content
checksum (`getChecksum` streams the file's bytes through sha-256 — embedded
as an arbitrary function of the content bytes only); reject with the
duplicate-file signal when a job with that checksum exists, creating no
job; otherwise create the PENDING job. -/
def uploadPost (checksum : List Nat → String) (fileOpt : Option UploadedFile)
    (newId createdAt : Nat) (st : St) : St × UploadResp :=
  match fileOpt with
  | none => (st, .noFile)
  | some f =>
    let cs := checksum f.content
    match st.jobs.find? (fun j => j.checksum == cs) with
    | some _ => (st, .duplicate)
    | none =>
      ({ st with jobs := st.jobs ++ [mkUploadJob newId f.filename cs f.path createdAt] },
       .created newId)

/-! ## Concrete scenario states -/

/-- `(chunkIndex, chunkSize)` pairs for consecutive chunk indices starting
at `c` — the insert calls a full pass over `chunks` issues. -/
def chunkSizes : Nat → List (List Nat) → List (Nat × Nat)
  | _, [] => []
  | c, ch :: rest => (c, ch.length) :: chunkSizes (c + 1) rest

/-- A freshly uploaded job, id 1. -/
def freshJob1 : Job := mkUploadJob 1 "f.csv" "abc123" "uploads/f.csv" 0

/-- Store holding only the fresh job. -/
def stFresh : St := { jobs := [freshJob1], audit := [], insertCalls := [], events := [] }

/-- Status of job 1 in a store. -/
def statusAt (st : St) : Option Status := (findJob st.jobs 1).map Job.status

/-- Scenario D (three consecutive hard failures, `maxRetries = 3`):
claim / fail, three rounds. -/
def sD1 : St × Option Job := getNextJob 3 10 stFresh
def sD2 : St := failJob 3 1 "hard failure" sD1.1
def sD3 : St × Option Job := getNextJob 3 20 sD2
def sD4 : St := failJob 3 1 "hard failure" sD3.1
def sD5 : St × Option Job := getNextJob 3 30 sD4
def sD6 : St := failJob 3 1 "hard failure" sD5.1

/-- The six statuses observed in Scenario D, after each claim and after
each failure. -/
def scenarioDStatuses : List (Option Status) :=
  [statusAt sD1.1, statusAt sD2, statusAt sD3.1, statusAt sD4,
   statusAt sD5.1, statusAt sD6]

/-- C2's run: one poll-loop iteration on the fresh job whose source file
does not exist (`fs` maps every path to `none`). -/
def stMissingFile : St := pollStep 3 (fun _ => none) (fun _ => .ok 0) 1000 99 stFresh

/-- C6's run: processing an empty CSV file (0 rows) for the fresh job. -/
def stEmptyFile : St × Except String Unit :=
  processCSVFile (fun _ => .ok 0) [] 1000 1 stFresh

/-- Scenario A rows: a 2500-row file. -/
def rows2500 : List Nat := List.replicate 2500 0

/-- Scenario A resume: the job restarts with `lastProcessedChunk = 1`. -/
def resumeJob1 : Job := { freshJob1 with lastProcessedChunk := 1 }

def stResume : St := { jobs := [resumeJob1], audit := [], insertCalls := [], events := [] }

/-- Scenario A resume run: chunk size 1000, every bulk insert succeeds. -/
def runResume : St × Except String Unit :=
  processCSVFile (fun _ => .ok 500) rows2500 1000 1 stResume

/-- An empty store. -/
def stEmpty : St := { jobs := [], audit := [], insertCalls := [], events := [] }

/-- The job claimed by `getNextJob` in the missing-file run (C2). -/
def claimedJob1 : Job := (getNextJob 3 99 stFresh).2.getD freshJob1

/-- The state right after the worker's processing callback returns on the
missing-file job, before `startPolling` reacts to the resolved promise. -/
def stWorkerRun : St × Except String Unit :=
  workerProcess (fun _ => none) (fun _ => .ok 0) 1000 claimedJob1
    (getNextJob 3 99 stFresh).1

/-- Two multer uploads with byte-identical content and different names. -/
def fileA : UploadedFile :=
  { filename := "17-a.csv", path := "uploads/17-a.csv", content := [10, 20, 30] }

def fileB : UploadedFile :=
  { filename := "99-b.csv", path := "uploads/99-b.csv", content := [10, 20, 30] }

/-- A stand-in content digest for concrete runs: any function of the bytes
alone qualifies (the route streams sha-256 over the file's bytes). -/
def csLen : List Nat → String := fun content => toString content.length

/-- Scenario C: a RUNNING job mid-processing. -/
def runningJob1 : Job :=
  { freshJob1 with status := .RUNNING, totalRows := 500 }

def stRunning : St :=
  { jobs := [runningJob1], audit := [], insertCalls := [], events := [] }

/-! ## Store lemmas -/

theorem findJob_updateJob (jobs : List Job) (jobId : Nat) (f : Job → Job)
    (hf : ∀ j : Job, (f j).id = j.id) :
    findJob (updateJob jobs jobId f) jobId = (findJob jobs jobId).map f := by
  induction jobs with
  | nil => simp [findJob, updateJob]
  | cons j rest ih =>
    simp only [findJob, updateJob, List.map_cons] at ih ⊢
    by_cases h : j.id = jobId
    · rw [if_pos (by simpa using h)]
      rw [List.find?_cons_of_pos _ (by simp [hf, h]),
          List.find?_cons_of_pos _ (by simp [h])]
      simp
    · rw [if_neg (by simpa using h)]
      rw [List.find?_cons_of_neg _ (by simp [h]),
          List.find?_cons_of_neg _ (by simp [h])]
      exact ih

/-- The oldest-job fold of `selectNext` only returns the accumulator or a
list element. -/
theorem selectFold_mem (l : List Job) :
    ∀ (acc : Option Job) (b : Job),
      l.foldl (fun acc j =>
        match acc with
        | none => some j
        | some c => if j.createdAt < c.createdAt then some j else some c) acc
        = some b →
      acc = some b ∨ b ∈ l := by
  induction l with
  | nil => intro acc b h; exact Or.inl h
  | cons j rest ih =>
    intro acc b h
    simp only [List.foldl_cons] at h
    rcases ih _ b h with h1 | h1
    · match acc with
      | none =>
        simp only at h1
        exact Or.inr (by simp [← Option.some_inj.mp h1])
      | some c =>
        simp only at h1
        by_cases hc : j.createdAt < c.createdAt
        · rw [if_pos hc] at h1
          exact Or.inr (by simp [← Option.some_inj.mp h1])
        · rw [if_neg hc] at h1
          exact Or.inl (by rw [Option.some_inj.mp h1])
    · exact Or.inr (List.mem_cons_of_mem _ h1)

/-- Any job `selectNext` returns passed the `getNextJob` filter: its status
is PENDING or RUNNING and its `retryCount` is strictly below `maxRetries`. -/
theorem selectNext_eligible (mr : Nat) (jobs : List Job) (j : Job)
    (h : selectNext mr jobs = some j) : eligible mr j = true := by
  unfold selectNext at h
  rcases selectFold_mem _ none j h with h1 | h1
  · exact absurd h1 (by simp)
  · exact (List.mem_filter.mp h1).2

/-! ## Chunk-split lemmas -/

/-- Feeding exactly enough rows to fill the current chunk emits one full
chunk and restarts with an empty accumulator. -/
theorem splitGo_full (cs : Nat) (xs : List Nat) :
    ∀ (ys cur : List Nat), cur.length + xs.length = cs → xs ≠ [] →
      splitGo cs (xs ++ ys) cur cur.length = (cur ++ xs) :: splitGo cs ys [] 0 := by
  induction xs with
  | nil => intro ys cur _ hne; exact absurd rfl hne
  | cons r xs' ih =>
    intro ys cur hlen _
    simp only [List.cons_append, splitGo]
    by_cases h' : xs' = []
    · subst h'
      rw [if_pos (by simp at hlen; omega)]
      simp
    · rw [if_neg (by have := List.length_pos.mpr h'; simp at hlen; omega)]
      have hrec := ih ys (cur ++ [r]) (by simp at hlen ⊢; omega) h'
      simp only [List.length_append, List.length_cons, List.length_nil,
        Nat.zero_add] at hrec
      simp only [List.append_eq]
      rw [hrec]
      simp

/-- Fewer rows than a full chunk: everything ends up in one trailing chunk
(or none, when there is nothing at all). -/
theorem splitGo_last (cs : Nat) (xs : List Nat) :
    ∀ (cur : List Nat), cur.length + xs.length < cs →
      splitGo cs xs cur cur.length =
        if cur ++ xs = [] then [] else [cur ++ xs] := by
  induction xs with
  | nil =>
    intro cur _
    simp only [splitGo, List.append_nil]
    rcases cur with _ | ⟨a, l⟩ <;> simp
  | cons r xs' ih =>
    intro cur hlen
    simp only [splitGo]
    rw [if_neg (by simp at hlen; omega)]
    have hrec := ih (cur ++ [r]) (by simp at hlen ⊢; omega)
    simp only [List.length_append, List.length_cons, List.length_nil,
      Nat.zero_add] at hrec
    rw [hrec]
    simp

/-- Every chunk `splitGo` emits is non-empty, provided the carried counter
matches the accumulator's length. -/
theorem splitGo_ne_nil (cs : Nat) (rows : List Nat) :
    ∀ (cur : List Nat) (curLen : Nat), curLen = cur.length →
      ∀ ch ∈ splitGo cs rows cur curLen, ch ≠ [] := by
  induction rows with
  | nil =>
    intro cur curLen hl ch hch
    simp only [splitGo] at hch
    by_cases h : curLen > 0
    · rw [if_pos h] at hch
      simp only [List.mem_singleton] at hch
      subst hch
      exact List.ne_nil_of_length_pos (by omega)
    · rw [if_neg h] at hch
      exact absurd hch (List.not_mem_nil ch)
  | cons r rs ih =>
    intro cur curLen hl ch hch
    simp only [splitGo] at hch
    by_cases h : curLen + 1 ≥ cs
    · rw [if_pos h] at hch
      rcases List.mem_cons.mp hch with h1 | h1
      · subst h1; simp
      · exact ih [] 0 rfl ch h1
    · rw [if_neg h] at hch
      exact ih (cur ++ [r]) (curLen + 1) (by simp [hl]) ch hch

/-- Scenario A's chunk split: 2500 rows with chunk size 1000 give chunks of
1000, 1000 and 500 rows. -/
theorem split_rows2500 :
    splitCSVIntoChunks rows2500 1000 =
      [List.replicate 1000 0, List.replicate 1000 0, List.replicate 500 0] := by
  have e1 : List.replicate 2500 (0 : Nat) =
      List.replicate 1000 (0 : Nat) ++
        (List.replicate 1000 (0 : Nat) ++ List.replicate 500 (0 : Nat)) := by
    rw [← List.replicate_add, ← List.replicate_add]
  have h1 := splitGo_full 1000 (List.replicate 1000 (0 : Nat))
    (List.replicate 1000 (0 : Nat) ++ List.replicate 500 (0 : Nat)) []
    (by simp only [List.length_nil, List.length_replicate])
    (List.ne_nil_of_length_pos (by simp only [List.length_replicate]; omega))
  have h2 := splitGo_full 1000 (List.replicate 1000 (0 : Nat))
    (List.replicate 500 (0 : Nat)) []
    (by simp only [List.length_nil, List.length_replicate])
    (List.ne_nil_of_length_pos (by simp only [List.length_replicate]; omega))
  have h3 := splitGo_last 1000 (List.replicate 500 (0 : Nat)) []
    (by simp only [List.length_nil, List.length_replicate]; omega)
  simp only [List.length_nil, List.nil_append] at h1 h2 h3
  rw [if_neg (List.ne_nil_of_length_pos
    (by simp only [List.length_replicate]; omega))] at h3
  unfold splitCSVIntoChunks rows2500
  rw [e1, h1, h2, h3]

/-! ## Chunk-step shape lemmas -/

/-- Skip branch: when the re-read job document already records the chunk as
processed, the step changes nothing and only counts the chunk's rows. -/
theorem chunkStep_skip (o : InsertOutcome) (jobId t c : Nat) (chunk : List Nat)
    (pr : Nat) (st : St) (j : Job) (hfind : findJob st.jobs jobId = some j)
    (hskip : (c : Int) ≤ j.lastProcessedChunk) :
    chunkStep o jobId t c chunk pr st = (st, .ok (pr + chunk.length)) := by
  simp only [chunkStep, hfind]
  rw [if_pos hskip]

/-- Successful-insert branch: the step issues the bulk insert, records an
INSERT entry, persists progress and emits one capped progress event. -/
theorem chunkStep_process (k : Nat) (jobId t c : Nat) (chunk : List Nat)
    (pr : Nat) (st : St) (j : Job)
    (hfind : findJob st.jobs jobId = some j)
    (hnoskip : ¬ ((c : Int) ≤ j.lastProcessedChunk))
    (hne : chunk ≠ []) :
    chunkStep (.ok k) jobId t c chunk pr st =
      ({ st with
          jobs := updateJob st.jobs jobId
            (fun jj => { jj with processedChunks := c + 1,
                                 lastProcessedChunk := (c : Int),
                                 processedRows := min t (pr + chunk.length) }),
          audit := st.audit ++
            [{ action := .INSERT, jobId := some jobId, chunkIndex := some c }],
          insertCalls := st.insertCalls ++ [(c, chunk.length)],
          events := st.events ++
            [{ jobId := jobId,
               percentage := min 100 (round100 (pr + chunk.length) t) }] },
       .ok (pr + chunk.length)) := by
  simp only [chunkStep, hfind]
  rw [if_neg hnoskip]
  simp only [processChunk]
  rw [if_neg (by simp [List.length_eq_zero, hne])]
  simp [progressWrite]

/-- All-duplicate branch: a duplicate-key bulk-insert rejection is handled
as a success, recording a SKIP entry instead of INSERT. -/
theorem chunkStep_dup (jobId t c : Nat) (chunk : List Nat)
    (pr : Nat) (st : St) (j : Job)
    (hfind : findJob st.jobs jobId = some j)
    (hnoskip : ¬ ((c : Int) ≤ j.lastProcessedChunk))
    (hne : chunk ≠ []) :
    chunkStep .dupKey jobId t c chunk pr st =
      ({ st with
          jobs := updateJob st.jobs jobId
            (fun jj => { jj with processedChunks := c + 1,
                                 lastProcessedChunk := (c : Int),
                                 processedRows := min t (pr + chunk.length) }),
          audit := st.audit ++
            [{ action := .SKIP, jobId := some jobId, chunkIndex := some c }],
          insertCalls := st.insertCalls ++ [(c, chunk.length)],
          events := st.events ++
            [{ jobId := jobId,
               percentage := min 100 (round100 (pr + chunk.length) t) }] },
       .ok (pr + chunk.length)) := by
  simp only [chunkStep, hfind]
  rw [if_neg hnoskip]
  simp only [processChunk]
  rw [if_neg (by simp [List.length_eq_zero, hne])]
  simp [progressWrite]

/-! ## Loop lemmas -/

/-- Splitting the chunk loop after a successful prefix. -/
theorem loop_append_ok (outcomes : Nat → InsertOutcome) (jobId t : Nat)
    (xs : List (List Nat)) :
    ∀ (ys : List (List Nat)) (c pr : Nat) (st st1 : St) (pr1 : Nat),
      processChunksLoop outcomes jobId t c xs pr st = (st1, .ok pr1) →
      processChunksLoop outcomes jobId t c (xs ++ ys) pr st =
        processChunksLoop outcomes jobId t (c + xs.length) ys pr1 st1 := by
  induction xs with
  | nil =>
    intro ys c pr st st1 pr1 h
    simp only [processChunksLoop, Prod.mk.injEq] at h
    obtain ⟨h1, h2⟩ := h
    cases h2
    subst h1
    simp
  | cons ch xs' ih =>
    intro ys c pr st st1 pr1 h
    simp only [processChunksLoop, List.cons_append] at h ⊢
    rcases hstep : chunkStep (outcomes c) jobId t c ch pr st with ⟨stA, r⟩
    rw [hstep] at h
    cases r with
    | error m => simp at h
    | ok prA =>
      dsimp only at h ⊢
      simp only [List.append_eq]
      rw [ih ys (c + 1) prA stA st1 pr1 h]
      have harith : c + 1 + xs'.length = c + (xs'.length + 1) := by omega
      rw [List.length_cons, harith]

/-- A run over chunks that are all already recorded as processed leaves the
state untouched and only accumulates the row counts. -/
theorem loop_skipAll (outcomes : Nat → InsertOutcome) (jobId t : Nat)
    (chunks : List (List Nat)) :
    ∀ (c pr : Nat) (st : St) (j : Job),
      findJob st.jobs jobId = some j →
      (∀ i : Nat, c ≤ i → i < c + chunks.length → (i : Int) ≤ j.lastProcessedChunk) →
      processChunksLoop outcomes jobId t c chunks pr st =
        (st, .ok (pr + (chunks.map List.length).sum)) := by
  induction chunks with
  | nil => intro c pr st j _ _; simp [processChunksLoop]
  | cons ch rest ih =>
    intro c pr st j hfind hskip
    have hc : ((c : Nat) : Int) ≤ j.lastProcessedChunk :=
      hskip c le_rfl (by simp only [List.length_cons]; omega)
    simp only [processChunksLoop,
      chunkStep_skip (outcomes c) jobId t c ch pr st j hfind hc]
    rw [ih (c + 1) (pr + ch.length) st j hfind
      (fun i h1 h2 => hskip i (by omega)
        (by simp only [List.length_cons] at h2 ⊢; omega))]
    simp [Nat.add_assoc]

/-- A run over chunks none of which is recorded as processed, with every
bulk insert succeeding: each chunk issues exactly one insert call, the run
succeeds, and the job document stays present with a `lastProcessedChunk`
below every later index. -/
theorem loop_processAll (outcomes : Nat → InsertOutcome) (jobId t : Nat)
    (chunks : List (List Nat)) :
    ∀ (c pr : Nat) (st : St) (j : Job),
      findJob st.jobs jobId = some j →
      j.lastProcessedChunk < (c : Int) →
      (∀ i : Nat, c ≤ i → i < c + chunks.length → ∃ k, outcomes i = .ok k) →
      (∀ ch ∈ chunks, ch ≠ []) →
      ∃ (st' : St) (j' : Job),
        processChunksLoop outcomes jobId t c chunks pr st =
          (st', .ok (pr + (chunks.map List.length).sum)) ∧
        st'.insertCalls = st.insertCalls ++ chunkSizes c chunks ∧
        findJob st'.jobs jobId = some j' ∧
        j'.lastProcessedChunk < ((c + chunks.length : Nat) : Int) := by
  induction chunks with
  | nil =>
    intro c pr st j hfind hlt _ _
    exact ⟨st, j, by simp [processChunksLoop, chunkSizes], by simp [chunkSizes],
      hfind, by simpa using hlt⟩
  | cons ch rest ih =>
    intro c pr st j hfind hlt hok hne
    obtain ⟨k, hk⟩ := hok c le_rfl (by simp only [List.length_cons]; omega)
    have hstep := chunkStep_process k jobId t c ch pr st j hfind
      (by omega) (hne ch (List.mem_cons_self _ _))
    rw [← hk] at hstep
    set stA : St :=
      { st with
          jobs := updateJob st.jobs jobId
            (fun jj => { jj with processedChunks := c + 1,
                                 lastProcessedChunk := (c : Int),
                                 processedRows := min t (pr + ch.length) }),
          audit := st.audit ++
            [{ action := .INSERT, jobId := some jobId, chunkIndex := some c }],
          insertCalls := st.insertCalls ++ [(c, ch.length)],
          events := st.events ++
            [{ jobId := jobId,
               percentage := min 100 (round100 (pr + ch.length) t) }] } with hstA
    have hfindA : findJob stA.jobs jobId =
        some { j with processedChunks := c + 1,
                      lastProcessedChunk := (c : Int),
                      processedRows := min t (pr + ch.length) } := by
      rw [hstA]
      have hmap := findJob_updateJob st.jobs jobId
        (fun jj => { jj with processedChunks := c + 1,
                             lastProcessedChunk := (c : Int),
                             processedRows := min t (pr + ch.length) })
        (fun jj => rfl)
      rw [hfind] at hmap
      simpa using hmap
    obtain ⟨st', j', hloop, hcalls, hfind', hlt'⟩ :=
      ih (c + 1) (pr + ch.length) stA _ hfindA (by simp)
        (fun i h1 h2 => hok i (by omega)
          (by simp only [List.length_cons] at h2 ⊢; omega))
        (fun ch2 h2 => hne ch2 (List.mem_cons_of_mem _ h2))
    refine ⟨st', j', ?_, ?_, hfind', ?_⟩
    · simp only [processChunksLoop, hstep, hloop]
      simp [Nat.add_assoc]
    · rw [hcalls, hstA]
      simp [chunkSizes]
    · simp only [List.length_cons]
      have : ((c + 1 : Nat) + rest.length : Nat) = (c + (rest.length + 1) : Nat) := by
        omega
      rw [← this]
      exact hlt'

/-! ## Event and invariant lemmas -/

/-- A chunk step either emits no event or exactly one event whose
percentage is capped at 100. -/
theorem chunkStep_events (o : InsertOutcome) (jobId t c : Nat)
    (chunk : List Nat) (pr : Nat) (st : St) :
    (chunkStep o jobId t c chunk pr st).1.events = st.events ∨
    ∃ p : Nat, p ≤ 100 ∧
      (chunkStep o jobId t c chunk pr st).1.events =
        st.events ++ [{ jobId := jobId, percentage := p }] := by
  rcases hfind : findJob st.jobs jobId with _ | j
  · left
    simp [chunkStep, hfind]
  · by_cases hskip : (c : Int) ≤ j.lastProcessedChunk
    · left
      simp [chunkStep_skip o jobId t c chunk pr st j hfind hskip]
    · simp only [chunkStep, hfind]
      rw [if_neg hskip]
      by_cases hn : chunk.length = 0
      · right
        refine ⟨min 100 (round100 (pr + chunk.length) t), min_le_left _ _, ?_⟩
        simp only [processChunk]
        rw [if_pos (by simpa using hn)]
        simp [progressWrite]
      · cases o with
        | ok k =>
          right
          refine ⟨min 100 (round100 (pr + chunk.length) t), min_le_left _ _, ?_⟩
          simp only [processChunk]
          rw [if_neg (by simpa using hn)]
          simp [progressWrite]
        | dupKey =>
          right
          refine ⟨min 100 (round100 (pr + chunk.length) t), min_le_left _ _, ?_⟩
          simp only [processChunk]
          rw [if_neg (by simpa using hn)]
          simp [progressWrite]
        | err m =>
          left
          simp only [processChunk]
          rw [if_neg (by simpa using hn)]

/-- Every event the chunk loop emits has percentage at most 100. -/
theorem loop_events_le (outcomes : Nat → InsertOutcome) (jobId t : Nat)
    (chunks : List (List Nat)) :
    ∀ (c pr : Nat) (st : St) (ev : ProgressEvent),
      ev ∈ (processChunksLoop outcomes jobId t c chunks pr st).1.events →
      ev ∈ st.events ∨ ev.percentage ≤ 100 := by
  induction chunks with
  | nil =>
    intro c pr st ev h
    simp only [processChunksLoop] at h
    exact Or.inl h
  | cons ch rest ih =>
    intro c pr st ev hev
    simp only [processChunksLoop] at hev
    have hstepev := chunkStep_events (outcomes c) jobId t c ch pr st
    rcases hstep : chunkStep (outcomes c) jobId t c ch pr st with ⟨stA, r⟩
    rw [hstep] at hev hstepev
    dsimp only at hstepev
    cases r with
    | error m =>
      dsimp only at hev
      rcases hstepev with h1 | ⟨p, hp, h1⟩
      · rw [h1] at hev
        exact Or.inl hev
      · rw [h1] at hev
        rcases List.mem_append.mp hev with h2 | h2
        · exact Or.inl h2
        · right
          simp only [List.mem_singleton] at h2
          subst h2
          exact hp
    | ok prA =>
      dsimp only at hev
      rcases ih (c + 1) prA stA ev hev with h2 | h2
      · rcases hstepev with h1 | ⟨p, hp, h1⟩
        · rw [h1] at h2
          exact Or.inl h2
        · rw [h1] at h2
          rcases List.mem_append.mp h2 with h3 | h3
          · exact Or.inl h3
          · right
            simp only [List.mem_singleton] at h3
            subst h3
            exact hp
      · exact Or.inr h2

/-- A chunk step either leaves the job collection alone or applies exactly
the per-chunk progress update. -/
theorem chunkStep_jobs (o : InsertOutcome) (jobId t c : Nat)
    (chunk : List Nat) (pr : Nat) (st : St) :
    (chunkStep o jobId t c chunk pr st).1.jobs = st.jobs ∨
    (chunkStep o jobId t c chunk pr st).1.jobs =
      updateJob st.jobs jobId
        (fun jj => { jj with processedChunks := c + 1,
                             lastProcessedChunk := (c : Int),
                             processedRows := min t (pr + chunk.length) }) := by
  rcases hfind : findJob st.jobs jobId with _ | j
  · left
    simp [chunkStep, hfind]
  · by_cases hskip : (c : Int) ≤ j.lastProcessedChunk
    · left
      simp [chunkStep_skip o jobId t c chunk pr st j hfind hskip]
    · simp only [chunkStep, hfind]
      rw [if_neg hskip]
      by_cases hn : chunk.length = 0
      · right
        simp only [processChunk]
        rw [if_pos (by simpa using hn)]
        simp [progressWrite]
      · cases o with
        | ok k =>
          right
          simp only [processChunk]
          rw [if_neg (by simpa using hn)]
          simp [progressWrite]
        | dupKey =>
          right
          simp only [processChunk]
          rw [if_neg (by simpa using hn)]
          simp [progressWrite]
        | err m =>
          left
          simp only [processChunk]
          rw [if_neg (by simpa using hn)]

/-- The chunk loop preserves the invariant `totalRows = t` and
`processedRows ≤ t` for the processed job: every persisted progress value
is capped at `totalRows`. -/
theorem loop_inv (outcomes : Nat → InsertOutcome) (jobId t : Nat)
    (chunks : List (List Nat)) :
    ∀ (c pr : Nat) (st : St),
      (∀ j, findJob st.jobs jobId = some j →
        j.totalRows = t ∧ j.processedRows ≤ t) →
      ∀ j', findJob (processChunksLoop outcomes jobId t c chunks pr st).1.jobs
          jobId = some j' →
        j'.totalRows = t ∧ j'.processedRows ≤ t := by
  induction chunks with
  | nil =>
    intro c pr st hinv j' hj'
    simp only [processChunksLoop] at hj'
    exact hinv j' hj'
  | cons ch rest ih =>
    intro c pr st hinv j' hj'
    simp only [processChunksLoop] at hj'
    have hjobs := chunkStep_jobs (outcomes c) jobId t c ch pr st
    rcases hstep : chunkStep (outcomes c) jobId t c ch pr st with ⟨stA, r⟩
    rw [hstep] at hj' hjobs
    dsimp only at hjobs
    have hinvA : ∀ j2, findJob stA.jobs jobId = some j2 →
        j2.totalRows = t ∧ j2.processedRows ≤ t := by
      rcases hjobs with h1 | h1
      · rw [h1]
        exact hinv
      · rw [h1]
        intro j2 hj2
        rw [findJob_updateJob st.jobs jobId
          (fun jj => { jj with processedChunks := c + 1,
                               lastProcessedChunk := (c : Int),
                               processedRows := min t (pr + ch.length) })
          (fun jj => rfl)] at hj2
        rcases hfind : findJob st.jobs jobId with _ | j
        · rw [hfind] at hj2
          exact absurd hj2 (by simp)
        · rw [hfind] at hj2
          simp only [Option.map_some'] at hj2
          obtain ⟨ht, _⟩ := hinv j hfind
          injection hj2 with hj2e
          subst hj2e
          exact ⟨ht, min_le_left _ _⟩
    cases r with
    | error m =>
      dsimp only at hj'
      exact hinvA j' hj'
    | ok prA =>
      dsimp only at hj'
      exact ih (c + 1) prA stA hinvA j' hj'

/-- Unfolding `processCSVFile` when the chunk loop succeeds. -/
theorem processCSVFile_loop_ok (outcomes : Nat → InsertOutcome)
    (rows : List Nat) (chunkSize jobId : Nat) (st st3 : St) (pr : Nat)
    (h : processChunksLoop outcomes jobId rows.length 0
        (splitCSVIntoChunks rows chunkSize) 0
        (totalChunksWrite jobId (splitCSVIntoChunks rows chunkSize).length
          (totalRowsWrite jobId rows.length st)) = (st3, .ok pr)) :
    processCSVFile outcomes rows chunkSize jobId st =
      ({ completeWrite jobId rows.length st3 with
          events := (completeWrite jobId rows.length st3).events ++
            [{ jobId := jobId, percentage := 100 }] },
       .ok ()) := by
  unfold processCSVFile
  dsimp only
  rw [h]

/-- Unfolding `processCSVFile` when the chunk loop fails hard. -/
theorem processCSVFile_loop_err (outcomes : Nat → InsertOutcome)
    (rows : List Nat) (chunkSize jobId : Nat) (st st3 : St) (m : String)
    (h : processChunksLoop outcomes jobId rows.length 0
        (splitCSVIntoChunks rows chunkSize) 0
        (totalChunksWrite jobId (splitCSVIntoChunks rows chunkSize).length
          (totalRowsWrite jobId rows.length st)) = (st3, .error m)) :
    processCSVFile outcomes rows chunkSize jobId st = (st3, .error m) := by
  unfold processCSVFile
  dsimp only
  rw [h]

/-- Every event a `processCSVFile` run emits has percentage at most 100. -/
theorem processCSVFile_events (outcomes : Nat → InsertOutcome)
    (rows : List Nat) (chunkSize jobId : Nat) (st : St) (ev : ProgressEvent)
    (hev : ev ∈ (processCSVFile outcomes rows chunkSize jobId st).1.events) :
    ev ∈ st.events ∨ ev.percentage ≤ 100 := by
  rcases hloop : processChunksLoop outcomes jobId rows.length 0
      (splitCSVIntoChunks rows chunkSize) 0
      (totalChunksWrite jobId (splitCSVIntoChunks rows chunkSize).length
        (totalRowsWrite jobId rows.length st)) with ⟨st3, r⟩
  cases r with
  | error m =>
    rw [processCSVFile_loop_err outcomes rows chunkSize jobId st st3 m hloop] at hev
    have := loop_events_le outcomes jobId rows.length
      (splitCSVIntoChunks rows chunkSize) 0 0
      (totalChunksWrite jobId (splitCSVIntoChunks rows chunkSize).length
        (totalRowsWrite jobId rows.length st)) ev (by rw [hloop]; exact hev)
    exact this
  | ok pr =>
    rw [processCSVFile_loop_ok outcomes rows chunkSize jobId st st3 pr hloop] at hev
    simp only [completeWrite] at hev
    rcases List.mem_append.mp hev with h2 | h2
    · exact loop_events_le outcomes jobId rows.length
        (splitCSVIntoChunks rows chunkSize) 0 0
        (totalChunksWrite jobId (splitCSVIntoChunks rows chunkSize).length
          (totalRowsWrite jobId rows.length st)) ev (by rw [hloop]; exact h2)
    · right
      simp only [List.mem_singleton] at h2
      subst h2
      exact le_refl 100

/-! ## Claim theorems -/

/-- C10: for every jobId for which no job exists in the Job Store,
`failJob(jobId, error)` is a no-op: it returns without creating any RETRY or
FAILED audit entry and without modifying any job state. -/
theorem failJob_missing_job_noop (maxRetries jobId : Nat) (e : String)
    (st : St) (h : findJob st.jobs jobId = none) :
    failJob maxRetries jobId e st = st := by
  simp [failJob, h]

theorem failJob_missing_job_noop_witness :
    findJob stFresh.jobs 2 = none ∧ failJob 3 2 "boom" stFresh = stFresh :=
  ⟨by decide, failJob_missing_job_noop 3 2 "boom" stFresh (by decide)⟩

/-- C2 (code bug): a claimed job whose source file is missing is first
written FAILED by the worker's callback, but the callback RESOLVES instead
of rejecting, so the `startPolling` loop that invoked it then calls
`completeJob`, which overwrites the job's status to COMPLETED and records a
COMPLETE audit entry — the job does not stay in terminal FAILED as the
specification requires. -/
theorem missing_file_job_overwritten_to_completed :
    statusAt stWorkerRun.1 = some .FAILED ∧
    stWorkerRun.2 = .ok () ∧
    statusAt stMissingFile = some .COMPLETED ∧
    stMissingFile.audit.map AuditEntry.action = [.START, .FAILED, .COMPLETE] ∧
    (findJob stMissingFile.jobs 1).map Job.error =
      some (some "File does not exist") := by
  exact ⟨by decide, rfl, by decide, by decide, by decide⟩

/-- C1 (counterexample): with `maxRetries = 3` and three consecutive hard
failures, the observed status sequence is NOT
RUNNING→PENDING→RUNNING→PENDING→RUNNING→FAILED: the job ends PENDING, and
`getNextJob` (requiring `retryCount < maxRetries`) never selects it again,
so it never automatically reaches FAILED. -/
theorem scenarioD_third_failure_not_FAILED :
    scenarioDStatuses ≠
      [some .RUNNING, some .PENDING, some .RUNNING, some .PENDING,
       some .RUNNING, some .FAILED] ∧
    statusAt sD6 = some .PENDING ∧
    (getNextJob 3 40 sD6).2 = none := by
  decide

/-- C1 (amended): with `maxRetries = 3`, three consecutive hard failures
yield the status sequence RUNNING→PENDING→RUNNING→PENDING→RUNNING→PENDING
with `retryCount = 3 = maxRetries`, exactly 3 RETRY audit entries and no
FAILED entry, after which `getNextJob` never selects the job again;
`failJob` increments `retryCount` and resets status to PENDING whenever
`retryCount < maxRetries` (recording a RETRY entry), and sets status FAILED
with `retryCount` unchanged (recording a FAILED entry) only when invoked
with `retryCount ≥ maxRetries`; `getNextJob` only returns jobs selected
with `retryCount` strictly below `maxRetries`. -/
theorem failJob_retry_semantics :
    (scenarioDStatuses =
      [some .RUNNING, some .PENDING, some .RUNNING, some .PENDING,
       some .RUNNING, some .PENDING] ∧
     (findJob sD6.jobs 1).map Job.retryCount = some 3 ∧
     (sD6.audit.filter (fun a => a.action == .RETRY)).length = 3 ∧
     (sD6.audit.filter (fun a => a.action == .FAILED)).length = 0 ∧
     (getNextJob 3 40 sD6).2 = none) ∧
    (∀ (mr jobId : Nat) (e : String) (st : St) (j : Job),
      findJob st.jobs jobId = some j →
      (j.retryCount < mr →
        (failJob mr jobId e st).audit =
          st.audit ++ [{ action := .RETRY, jobId := some jobId,
                         retryCount := some (j.retryCount + 1),
                         error := some e }] ∧
        ∀ j2, findJob (failJob mr jobId e st).jobs jobId = some j2 →
          j2.status = .PENDING ∧ j2.retryCount = j.retryCount + 1) ∧
      (¬ j.retryCount < mr →
        (failJob mr jobId e st).audit =
          st.audit ++ [{ action := .FAILED, jobId := some jobId,
                         retryCount := some j.retryCount,
                         error := some e }] ∧
        ∀ j2, findJob (failJob mr jobId e st).jobs jobId = some j2 →
          j2.status = .FAILED ∧ j2.retryCount = j.retryCount)) ∧
    (∀ (mr now : Nat) (st : St) (j : Job),
      (getNextJob mr now st).2 = some j →
      ∃ j0, selectNext mr st.jobs = some j0 ∧ j0.retryCount < mr) := by
  refine ⟨by decide, ?_, ?_⟩
  · intro mr jobId e st j hfind
    constructor
    · intro hlt
      simp only [failJob, hfind]
      rw [if_pos hlt]
      refine ⟨rfl, ?_⟩
      intro j2 hj2
      rw [findJob_updateJob st.jobs jobId
        (fun jj => { jj with status := .PENDING, error := some e,
                             retryCount := j.retryCount + 1 })
        (fun jj => rfl), hfind] at hj2
      simp only [Option.map_some'] at hj2
      injection hj2 with hj2e
      subst hj2e
      exact ⟨rfl, rfl⟩
    · intro hge
      simp only [failJob, hfind]
      rw [if_neg hge]
      refine ⟨rfl, ?_⟩
      intro j2 hj2
      rw [findJob_updateJob st.jobs jobId
        (fun jj => { jj with status := .FAILED, error := some e,
                             retryCount := j.retryCount })
        (fun jj => rfl), hfind] at hj2
      simp only [Option.map_some'] at hj2
      injection hj2 with hj2e
      subst hj2e
      exact ⟨rfl, rfl⟩
  · intro mr now st j hret
    rcases hsel : selectNext mr st.jobs with _ | j0
    · rw [getNextJob, hsel] at hret
      exact absurd hret (by simp)
    · have helig := selectNext_eligible mr st.jobs j0 hsel
      simp only [eligible, Bool.and_eq_true, decide_eq_true_eq] at helig
      exact ⟨j0, rfl, helig.2⟩

theorem failJob_retry_semantics_witness :
    ((failJob 3 1 "boom" stFresh).audit =
      stFresh.audit ++ [{ action := .RETRY, jobId := some 1,
                          retryCount := some 1, error := some "boom" }]) ∧
    (∃ j0, selectNext 3 stFresh.jobs = some j0 ∧ j0.retryCount < 3) := by
  refine ⟨?_, ?_⟩
  · exact ((failJob_retry_semantics.2.1 3 1 "boom" stFresh freshJob1
      (by decide)).1 (by decide)).1
  · exact failJob_retry_semantics.2.2 3 99 stFresh (claimUpdate 99 freshJob1 freshJob1)
      (by decide)

/-- C8: the claim applied by `getNextJob` sets status RUNNING and sets
`startedAt` only when the selected job's current status is PENDING,
preserving the existing `startedAt` on a RUNNING re-claim, and leaves every
other job field unchanged; `getNextJob` applies exactly this update to the
selected job's stored document and returns the updated job. -/
theorem getNextJob_claim_frame (now : Nat) (j0 jj : Job) (mr : Nat) (st : St) :
    (selectNext mr st.jobs = some j0 →
      getNextJob mr now st =
        ({ st with
            jobs := updateJob st.jobs j0.id (claimUpdate now j0),
            audit := st.audit ++ [{ action := .START, jobId := some j0.id }] },
         some (claimUpdate now j0 j0))) ∧
    (j0.status = .PENDING → (claimUpdate now j0 jj).startedAt = some now) ∧
    (j0.status = .RUNNING → (claimUpdate now j0 jj).startedAt = j0.startedAt) ∧
    (claimUpdate now j0 jj).status = .RUNNING ∧
    (claimUpdate now j0 jj).id = jj.id ∧
    (claimUpdate now j0 jj).filename = jj.filename ∧
    (claimUpdate now j0 jj).checksum = jj.checksum ∧
    (claimUpdate now j0 jj).processedRows = jj.processedRows ∧
    (claimUpdate now j0 jj).totalRows = jj.totalRows ∧
    (claimUpdate now j0 jj).totalChunks = jj.totalChunks ∧
    (claimUpdate now j0 jj).processedChunks = jj.processedChunks ∧
    (claimUpdate now j0 jj).filePath = jj.filePath ∧
    (claimUpdate now j0 jj).error = jj.error ∧
    (claimUpdate now j0 jj).lastProcessedChunk = jj.lastProcessedChunk ∧
    (claimUpdate now j0 jj).retryCount = jj.retryCount ∧
    (claimUpdate now j0 jj).maxRetries = jj.maxRetries ∧
    (claimUpdate now j0 jj).completedAt = jj.completedAt ∧
    (claimUpdate now j0 jj).createdAt = jj.createdAt := by
  refine ⟨?_, ?_, ?_, rfl, rfl, rfl, rfl, rfl, rfl, rfl, rfl, rfl, rfl, rfl,
    rfl, rfl, rfl, rfl⟩
  · intro hsel
    have helig := selectNext_eligible mr st.jobs j0 hsel
    simp only [eligible, Bool.and_eq_true, Bool.or_eq_true, beq_iff_eq]
      at helig
    simp only [getNextJob, hsel]
    rw [if_pos (by rcases helig.1 with h | h <;> simp [h])]
  · intro h
    simp [claimUpdate, h]
  · intro h
    simp [claimUpdate, h]

theorem getNextJob_claim_frame_witness :
    getNextJob 3 5 stFresh =
      ({ stFresh with
          jobs := updateJob stFresh.jobs freshJob1.id (claimUpdate 5 freshJob1),
          audit := stFresh.audit ++
            [{ action := .START, jobId := some freshJob1.id }] },
       some (claimUpdate 5 freshJob1 freshJob1)) ∧
    (claimUpdate 5 freshJob1 freshJob1).startedAt = some 5 ∧
    (claimUpdate 5 freshJob1 freshJob1).retryCount = freshJob1.retryCount := by
  have h := getNextJob_claim_frame 5 freshJob1 freshJob1 3 stFresh
  exact ⟨h.1 (by decide), h.2.1 (by decide), h.2.2.2.2.2.2.2.2.2.2.2.2.2.2.1⟩

/-- C4: the upload route computes the content checksum (a function of the
file's bytes only); when any job with that checksum already exists the
upload is rejected with the duplicate-file signal and no job is created,
and in particular a second upload whose bytes are identical to an upload
that created a job is always rejected, regardless of either filename. -/
theorem duplicate_checksum_upload_rejected (checksum : List Nat → String)
    (st : St) (f1 f2 : UploadedFile) (id1 t1 id2 t2 : Nat) :
    (∀ f : UploadedFile,
      (st.jobs.find? (fun j => j.checksum == checksum f.content)).isSome →
      uploadPost checksum (some f) id1 t1 st = (st, .duplicate)) ∧
    (f1.content = f2.content →
      ∀ st1 : St, uploadPost checksum (some f1) id1 t1 st = (st1, .created id1) →
        uploadPost checksum (some f2) id2 t2 st1 = (st1, .duplicate)) := by
  constructor
  · intro f h
    simp only [uploadPost]
    rcases hfind : st.jobs.find? (fun j => j.checksum == checksum f.content)
      with _ | j
    · rw [hfind] at h
      exact absurd h (by simp)
    · rw [hfind]
  · intro hc st1 h1
    simp only [uploadPost] at h1
    rcases hfind : st.jobs.find? (fun j => j.checksum == checksum f1.content)
      with _ | j
    · rw [hfind] at h1
      simp only [Prod.mk.injEq] at h1
      obtain ⟨hst1, -⟩ := h1
      subst hst1
      simp only [uploadPost, ← hc]
      rw [List.find?_append, hfind]
      simp [mkUploadJob]
    · rw [hfind] at h1
      exact absurd h1 (by simp)

theorem duplicate_checksum_upload_rejected_witness :
    uploadPost csLen (some fileB) 8 1
        { stEmpty with jobs := [mkUploadJob 7 fileA.filename (csLen fileA.content)
            fileA.path 0] } =
      ({ stEmpty with jobs := [mkUploadJob 7 fileA.filename (csLen fileA.content)
            fileA.path 0] }, .duplicate) := by
  refine (duplicate_checksum_upload_rejected csLen stEmpty fileA fileB 7 0 8 1).2
    (by decide) _ ?_
  decide

/-- C5: when the bulk insert for a chunk fails only with duplicate-key
errors (code 11000), the chunk is classified all-duplicate: a SKIP audit
entry is recorded, the step still succeeds advancing `processedRows` by the
chunk's row count, the loop continues with the next chunk, and the job's
`retryCount` and status are untouched (a RUNNING job stays RUNNING). -/
theorem dupkey_chunk_success (outcomes : Nat → InsertOutcome)
    (jobId t c : Nat) (chunk : List Nat) (rest : List (List Nat))
    (pr : Nat) (st : St) (j : Job)
    (hfind : findJob st.jobs jobId = some j)
    (hnoskip : ¬ ((c : Int) ≤ j.lastProcessedChunk))
    (hne : chunk ≠ [])
    (hdup : outcomes c = .dupKey) :
    ∃ st' : St,
      chunkStep (outcomes c) jobId t c chunk pr st = (st', .ok (pr + chunk.length)) ∧
      st'.audit = st.audit ++
        [{ action := .SKIP, jobId := some jobId, chunkIndex := some c }] ∧
      (∀ j2, findJob st'.jobs jobId = some j2 →
        j2.retryCount = j.retryCount ∧ j2.status = j.status) ∧
      processChunksLoop outcomes jobId t c (chunk :: rest) pr st =
        processChunksLoop outcomes jobId t (c + 1) rest (pr + chunk.length) st' := by
  rw [hdup]
  have hstep := chunkStep_dup jobId t c chunk pr st j hfind hnoskip hne
  refine ⟨_, hstep, rfl, ?_, ?_⟩
  · intro j2 hj2
    rw [show ({ st with
        jobs := updateJob st.jobs jobId
          (fun jj => { jj with processedChunks := c + 1,
                               lastProcessedChunk := (c : Int),
                               processedRows := min t (pr + chunk.length) }),
        audit := st.audit ++
          [{ action := .SKIP, jobId := some jobId, chunkIndex := some c }],
        insertCalls := st.insertCalls ++ [(c, chunk.length)],
        events := st.events ++
          [{ jobId := jobId,
             percentage := min 100 (round100 (pr + chunk.length) t) }] } : St).jobs
      = updateJob st.jobs jobId
          (fun jj => { jj with processedChunks := c + 1,
                               lastProcessedChunk := (c : Int),
                               processedRows := min t (pr + chunk.length) })
      from rfl] at hj2
    rw [findJob_updateJob st.jobs jobId
      (fun jj => { jj with processedChunks := c + 1,
                           lastProcessedChunk := (c : Int),
                           processedRows := min t (pr + chunk.length) })
      (fun jj => rfl), hfind] at hj2
    simp only [Option.map_some'] at hj2
    injection hj2 with hj2e
    subst hj2e
    exact ⟨rfl, rfl⟩
  · simp only [processChunksLoop]
    rw [hdup, hstep]

theorem dupkey_chunk_success_witness :
    ∃ st' : St,
      chunkStep ((fun _ => InsertOutcome.dupKey) 0) 1 500 0
          (List.replicate 500 7) 0 stRunning =
        (st', .ok (0 + (List.replicate 500 7).length)) ∧
      st'.audit = stRunning.audit ++
        [{ action := .SKIP, jobId := some 1, chunkIndex := some 0 }] ∧
      (∀ j2, findJob st'.jobs 1 = some j2 →
        j2.retryCount = runningJob1.retryCount ∧ j2.status = runningJob1.status) ∧
      processChunksLoop (fun _ => InsertOutcome.dupKey) 1 500 0
          [List.replicate 500 7] 0 stRunning =
        processChunksLoop (fun _ => InsertOutcome.dupKey) 1 500 1 []
          (0 + (List.replicate 500 7).length) st' :=
  dupkey_chunk_success (fun _ => .dupKey) 1 500 0 (List.replicate 500 7) [] 0
    stRunning runningJob1 (by decide) (by decide)
    (List.ne_nil_of_length_pos (by simp only [List.length_replicate]; omega))
    rfl

/-- C9: a freshly created job has `lastProcessedChunk = -1` and
`retryCount = processedRows = processedChunks = 0`, so the resume test
`lastProcessedChunk >= chunkIndex` is false for every chunk index, and a
first full run over a new job issues one bulk insert per chunk — no chunk
is skipped. -/
theorem fresh_job_no_skip :
    (∀ (id : Nat) (fn cs fp : String) (ca : Nat),
      (mkUploadJob id fn cs fp ca).lastProcessedChunk = -1 ∧
      (mkUploadJob id fn cs fp ca).retryCount = 0 ∧
      (mkUploadJob id fn cs fp ca).processedRows = 0 ∧
      (mkUploadJob id fn cs fp ca).processedChunks = 0 ∧
      ∀ c : Nat, ¬ ((c : Int) ≤ (mkUploadJob id fn cs fp ca).lastProcessedChunk)) ∧
    (∀ (outcomes : Nat → InsertOutcome) (rows : List Nat)
       (chunkSize jobId : Nat) (fn cs fp : String) (ca : Nat) (st : St),
      findJob st.jobs jobId = some (mkUploadJob jobId fn cs fp ca) →
      (∀ i : Nat, ∃ k, outcomes i = .ok k) →
      ∃ st' : St,
        processCSVFile outcomes rows chunkSize jobId st = (st', .ok ()) ∧
        st'.insertCalls = st.insertCalls ++
          chunkSizes 0 (splitCSVIntoChunks rows chunkSize)) := by
  constructor
  · intro id fn cs fp ca
    refine ⟨rfl, rfl, rfl, rfl, ?_⟩
    intro c hc
    have he : (mkUploadJob id fn cs fp ca).lastProcessedChunk = -1 := rfl
    rw [he] at hc
    omega
  · intro outcomes rows chunkSize jobId fn cs fp ca st hfind hok
    have h1 : findJob (totalRowsWrite jobId rows.length st).jobs jobId =
        some { mkUploadJob jobId fn cs fp ca with
                 totalRows := rows.length, status := .RUNNING } := by
      simp only [totalRowsWrite]
      rw [findJob_updateJob st.jobs jobId
        (fun j => { j with totalRows := rows.length, status := .RUNNING })
        (fun j => rfl), hfind]
      rfl
    have h2 : findJob (totalChunksWrite jobId
        (splitCSVIntoChunks rows chunkSize).length
        (totalRowsWrite jobId rows.length st)).jobs jobId =
        some { mkUploadJob jobId fn cs fp ca with
                 totalRows := rows.length, status := .RUNNING,
                 totalChunks := (splitCSVIntoChunks rows chunkSize).length } := by
      simp only [totalChunksWrite]
      rw [findJob_updateJob _ jobId
        (fun j => { j with
          totalChunks := (splitCSVIntoChunks rows chunkSize).length })
        (fun j => rfl), h1]
      rfl
    obtain ⟨st3, j', hloop, hcalls, -, -⟩ :=
      loop_processAll outcomes jobId rows.length
        (splitCSVIntoChunks rows chunkSize) 0 0
        (totalChunksWrite jobId (splitCSVIntoChunks rows chunkSize).length
          (totalRowsWrite jobId rows.length st))
        { mkUploadJob jobId fn cs fp ca with
            totalRows := rows.length, status := .RUNNING,
            totalChunks := (splitCSVIntoChunks rows chunkSize).length }
        h2
        (show (-1 : Int) < ((0 : Nat) : Int) by simp)
        (fun i h1i h2i => hok i)
        (splitGo_ne_nil chunkSize rows [] 0 rfl)
    refine ⟨_, processCSVFile_loop_ok outcomes rows chunkSize jobId st st3 _
      hloop, ?_⟩
    rw [show ({ completeWrite jobId rows.length st3 with
        events := (completeWrite jobId rows.length st3).events ++
          [{ jobId := jobId, percentage := 100 }] } : St).insertCalls =
      st3.insertCalls from rfl, hcalls]
    rfl

theorem fresh_job_no_skip_witness :
    (mkUploadJob 4 "n.csv" "sum9" "uploads/n.csv" 2).lastProcessedChunk = -1 ∧
    ¬ ((0 : Int) ≤ (mkUploadJob 4 "n.csv" "sum9" "uploads/n.csv" 2).lastProcessedChunk) ∧
    ∃ st' : St,
      processCSVFile (fun _ => .ok 2) [5, 6, 7] 2 1 stFresh = (st', .ok ()) ∧
      st'.insertCalls = stFresh.insertCalls ++
        chunkSizes 0 (splitCSVIntoChunks [5, 6, 7] 2) := by
  refine ⟨(fresh_job_no_skip.1 4 "n.csv" "sum9" "uploads/n.csv" 2).1,
    (fresh_job_no_skip.1 4 "n.csv" "sum9" "uploads/n.csv" 2).2.2.2.2 0, ?_⟩
  exact fresh_job_no_skip.2 (fun _ => .ok 2) [5, 6, 7] 2 1 "f.csv" "abc123"
    "uploads/f.csv" 0 stFresh (by decide) (fun i => ⟨2, rfl⟩)

set_option maxRecDepth 8000 in
/-- C3: when the processor re-reads the job and finds the chunk index
already covered by `lastProcessedChunk`, it does not re-insert the chunk
but still adds its row count to `processedRows` (state unchanged); and for
Scenario A, a 2500-row file with chunk size 1000 splits into chunks of
1000/1000/500 rows, and the resume run with `lastProcessedChunk = 1` issues
exactly one bulk insert, for chunk 2 with its 500 rows, completing
successfully. -/
theorem idempotent_resume :
    (∀ (o : InsertOutcome) (jobId t c : Nat) (chunk : List Nat) (pr : Nat)
       (st : St) (j : Job),
      findJob st.jobs jobId = some j →
      (c : Int) ≤ j.lastProcessedChunk →
      chunkStep o jobId t c chunk pr st = (st, .ok (pr + chunk.length))) ∧
    (splitCSVIntoChunks rows2500 1000).map List.length = [1000, 1000, 500] ∧
    runResume.1.insertCalls = [(2, 500)] ∧
    runResume.2 = .ok () := by
  have hchunks : splitCSVIntoChunks rows2500 1000 =
      [List.replicate 1000 0, List.replicate 1000 0] ++ [List.replicate 500 0] := by
    rw [split_rows2500]
    rfl
  have hfindR : findJob stResume.jobs 1 = some resumeJob1 := rfl
  have h1 : findJob (totalRowsWrite 1 rows2500.length stResume).jobs 1 =
      some { resumeJob1 with
               totalRows := rows2500.length, status := .RUNNING } := by
    simp only [totalRowsWrite]
    rw [findJob_updateJob stResume.jobs 1
      (fun j => { j with totalRows := rows2500.length, status := .RUNNING })
      (fun j => rfl), hfindR]
    rfl
  have h2 : findJob (totalChunksWrite 1
      (splitCSVIntoChunks rows2500 1000).length
      (totalRowsWrite 1 rows2500.length stResume)).jobs 1 =
      some { resumeJob1 with
               totalRows := rows2500.length, status := .RUNNING,
               totalChunks := (splitCSVIntoChunks rows2500 1000).length } := by
    simp only [totalChunksWrite]
    rw [findJob_updateJob _ 1
      (fun j => { j with
        totalChunks := (splitCSVIntoChunks rows2500 1000).length })
      (fun j => rfl), h1]
    rfl
  have hlpc : ({ resumeJob1 with
      totalRows := rows2500.length, status := Status.RUNNING,
      totalChunks := (splitCSVIntoChunks rows2500 1000).length } :
        Job).lastProcessedChunk = 1 := rfl
  have hskipEq := loop_skipAll (fun _ => InsertOutcome.ok 500) 1
    rows2500.length [List.replicate 1000 0, List.replicate 1000 0] 0 0
    (totalChunksWrite 1 (splitCSVIntoChunks rows2500 1000).length
      (totalRowsWrite 1 rows2500.length stResume))
    _ h2
    (by intro i hi1 hi2
        rw [hlpc]
        simp only [List.length_cons, List.length_nil] at hi2
        omega)
  simp only [List.map_cons, List.map_nil, List.sum_cons, List.sum_nil,
    List.length_replicate] at hskipEq
  norm_num at hskipEq
  have happ := loop_append_ok (fun _ => InsertOutcome.ok 500) 1
    rows2500.length [List.replicate 1000 0, List.replicate 1000 0]
    [List.replicate 500 0] 0 0
    (totalChunksWrite 1 (splitCSVIntoChunks rows2500 1000).length
      (totalRowsWrite 1 rows2500.length stResume))
    (totalChunksWrite 1 (splitCSVIntoChunks rows2500 1000).length
      (totalRowsWrite 1 rows2500.length stResume))
    2000 hskipEq
  have hlen2 : (0 +
      ([List.replicate 1000 0, List.replicate 1000 (0 : Nat)]).length) = 2 := by
    simp
  rw [hlen2] at happ
  obtain ⟨st3, j3, hloopB, hcalls, -, -⟩ :=
    loop_processAll (fun _ => InsertOutcome.ok 500) 1 rows2500.length
      [List.replicate 500 0] 2 2000
      (totalChunksWrite 1 (splitCSVIntoChunks rows2500 1000).length
        (totalRowsWrite 1 rows2500.length stResume))
      _ h2
      (by rw [hlpc]; decide)
      (fun i hi1 hi2 => ⟨500, rfl⟩)
      (by intro ch hch
          simp only [List.mem_singleton] at hch
          subst hch
          exact List.ne_nil_of_length_pos
            (by simp only [List.length_replicate]; omega))
  simp only [List.map_cons, List.map_nil, List.sum_cons, List.sum_nil,
    List.length_replicate] at hloopB
  norm_num at hloopB
  have hfull : processChunksLoop (fun _ => InsertOutcome.ok 500) 1
      rows2500.length 0 (splitCSVIntoChunks rows2500 1000) 0
      (totalChunksWrite 1 (splitCSVIntoChunks rows2500 1000).length
        (totalRowsWrite 1 rows2500.length stResume)) = (st3, .ok 2500) := by
    nth_rewrite 1 [hchunks]
    rw [happ, hloopB]
  have hrunEq := processCSVFile_loop_ok (fun _ => InsertOutcome.ok 500)
    rows2500 1000 1 stResume st3 2500 hfull
  refine ⟨fun o jobId t c chunk pr st j hfind hskip =>
      chunkStep_skip o jobId t c chunk pr st j hfind hskip, ?_, ?_, ?_⟩
  · rw [split_rows2500]
    simp only [List.map_cons, List.map_nil, List.length_replicate]
  · rw [show runResume =
      processCSVFile (fun _ => InsertOutcome.ok 500) rows2500 1000 1 stResume
      from rfl, hrunEq]
    show st3.insertCalls = [(2, 500)]
    rw [hcalls]
    show ([] : List (Nat × Nat)) ++ chunkSizes 2 [List.replicate 500 0] =
      [(2, 500)]
    simp [chunkSizes, List.length_replicate]
  · rw [show runResume =
      processCSVFile (fun _ => InsertOutcome.ok 500) rows2500 1000 1 stResume
      from rfl, hrunEq]

theorem idempotent_resume_witness :
    chunkStep (InsertOutcome.ok 9) 1 2500 0 [7] 0 stResume =
      (stResume, .ok (0 + ([7] : List Nat).length)) :=
  idempotent_resume.1 (.ok 9) 1 2500 0 [7] 0 stResume resumeJob1
    (by decide) (by decide)

/-- C6 (counterexample): processing a 0-row file completes and emits the
final completion event with percentage 100 while `totalRows` is 0 — the
claim requires percentage 0 whenever `totalRows` is 0. -/
theorem empty_file_final_event_pct100 :
    stEmptyFile.1.events = [{ jobId := 1, percentage := 100 }] ∧
    (findJob stEmptyFile.1.jobs 1).map Job.totalRows = some 0 ∧
    (100 : Nat) ≠ 0 := by
  decide

/-- C6 (amended): poller events report
`totalRows > 0 ? min(100, round(100*processedRows/totalRows)) : 0`;
each chunk-processing event reports
`min(100, round(100*processedRows/totalRows))`; every event emitted by a
processor run is an integer percentage ≤ 100 (≥ 0 being inherent to `Nat`);
but the final completion event always carries the literal 100, even for an
empty file whose `totalRows` is 0, where the claim demanded 0. -/
theorem progress_percentage_semantics :
    (∀ (jobs : List Job) (ev : ProgressEvent), ev ∈ pollerEvents jobs →
      ev.percentage ≤ 100 ∧
      ∃ j ∈ jobs, (j.status = .RUNNING ∨ j.status = .PENDING) ∧
        ev.percentage =
          (if 0 < j.totalRows
           then min 100 (round100 j.processedRows j.totalRows) else 0)) ∧
    (∀ (o : InsertOutcome) (jobId t c : Nat) (chunk : List Nat) (pr : Nat)
       (st : St) (j : Job) (k : Nat),
      findJob st.jobs jobId = some j →
      ¬ ((c : Int) ≤ j.lastProcessedChunk) →
      chunk ≠ [] →
      (o = .ok k ∨ o = .dupKey) →
      (chunkStep o jobId t c chunk pr st).1.events =
        st.events ++
          [{ jobId := jobId,
             percentage := min 100 (round100 (pr + chunk.length) t) }]) ∧
    (∀ (outcomes : Nat → InsertOutcome) (rows : List Nat)
       (chunkSize jobId : Nat) (st : St) (ev : ProgressEvent),
      ev ∈ (processCSVFile outcomes rows chunkSize jobId st).1.events →
      ev ∈ st.events ∨ ev.percentage ≤ 100) ∧
    (∀ (outcomes : Nat → InsertOutcome) (chunkSize jobId : Nat) (st : St),
      (processCSVFile outcomes [] chunkSize jobId st).1.events =
        st.events ++ [{ jobId := jobId, percentage := 100 }]) := by
  refine ⟨?_, ?_, ?_, ?_⟩
  · intro jobs ev hev
    simp only [pollerEvents, List.mem_map, List.mem_filter] at hev
    obtain ⟨j, ⟨hjmem, hstat⟩, hev⟩ := hev
    subst hev
    constructor
    · show pollerPercentage j ≤ 100
      simp only [pollerPercentage]
      split
      · exact min_le_left _ _
      · exact Nat.zero_le 100
    · refine ⟨j, hjmem, ?_, rfl⟩
      simpa using hstat
  · intro o jobId t c chunk pr st j k hfind hnoskip hne ho
    rcases ho with rfl | rfl
    · rw [chunkStep_process k jobId t c chunk pr st j hfind hnoskip hne]
    · rw [chunkStep_dup jobId t c chunk pr st j hfind hnoskip hne]
  · intro outcomes rows chunkSize jobId st ev hev
    exact processCSVFile_events outcomes rows chunkSize jobId st ev hev
  · intro outcomes chunkSize jobId st
    rfl

theorem progress_percentage_semantics_witness :
    ({ jobId := 1, percentage := 0 } : ProgressEvent).percentage ≤ 100 ∧
    (chunkStep (InsertOutcome.ok 1) 1 500 0 [7] 0 stRunning).1.events =
      stRunning.events ++
        [{ jobId := 1, percentage := min 100 (round100 (0 + [7].length) 500) }] ∧
    (processCSVFile (fun _ => InsertOutcome.ok 0) [] 1000 1 stFresh).1.events =
      stFresh.events ++ [{ jobId := 1, percentage := 100 }] := by
  refine ⟨?_, ?_, ?_⟩
  · exact (progress_percentage_semantics.1 [runningJob1]
      { jobId := 1, percentage := 0 } (by decide)).1
  · exact progress_percentage_semantics.2.1 (.ok 1) 1 500 0 [7] 0 stRunning
      runningJob1 1 (by decide) (by decide) (by decide) (Or.inl rfl)
  · exact progress_percentage_semantics.2.2.2 (fun _ => InsertOutcome.ok 0)
      1000 1 stFresh

/-- C7: every per-chunk progress write persists
`processedRows = min(totalRows, processedRows)`, hence a value capped at
`totalRows`; the chunk loop preserves `processedRows ≤ totalRows` for the
processed job once `totalRows` is written; and a successful run's final
write sets `processedRows` equal to `totalRows`. -/
theorem processedRows_capped (outcomes : Nat → InsertOutcome)
    (rows : List Nat) (chunkSize jobId : Nat) (st : St) :
    (∀ (c t pr : Nat) (st2 : St) (j j2 : Job),
      findJob st2.jobs jobId = some j →
      findJob (progressWrite jobId c t pr st2).jobs jobId = some j2 →
      j2.processedRows = min t pr ∧ j2.processedRows ≤ t ∧
      j2.totalRows = j.totalRows) ∧
    (∀ (chunks : List (List Nat)) (c pr t : Nat) (st2 : St),
      (∀ j, findJob st2.jobs jobId = some j →
        j.totalRows = t ∧ j.processedRows ≤ t) →
      ∀ j', findJob
          (processChunksLoop outcomes jobId t c chunks pr st2).1.jobs jobId
          = some j' →
        j'.totalRows = t ∧ j'.processedRows ≤ t) ∧
    (∀ st' : St,
      (∀ j0, findJob st.jobs jobId = some j0 →
        j0.processedRows ≤ rows.length) →
      processCSVFile outcomes rows chunkSize jobId st = (st', .ok ()) →
      ∀ j', findJob st'.jobs jobId = some j' →
        j'.processedRows = rows.length ∧ j'.totalRows = rows.length) := by
  refine ⟨?_, ?_, ?_⟩
  · intro c t pr st2 j j2 hj hj2
    simp only [progressWrite] at hj2
    rw [findJob_updateJob st2.jobs jobId
      (fun jj => { jj with processedChunks := c + 1,
                           lastProcessedChunk := (c : Int),
                           processedRows := min t pr })
      (fun jj => rfl), hj] at hj2
    simp only [Option.map_some'] at hj2
    injection hj2 with hj2e
    subst hj2e
    exact ⟨rfl, min_le_left _ _, rfl⟩
  · intro chunks c pr t st2 hinv j' hj'
    exact loop_inv outcomes jobId t chunks c pr st2 hinv j' hj'
  · intro st' hinit hrun j' hj'
    rcases hloop : processChunksLoop outcomes jobId rows.length 0
        (splitCSVIntoChunks rows chunkSize) 0
        (totalChunksWrite jobId (splitCSVIntoChunks rows chunkSize).length
          (totalRowsWrite jobId rows.length st)) with ⟨st3, r⟩
    cases r with
    | error m =>
      rw [processCSVFile_loop_err outcomes rows chunkSize jobId st st3 m hloop]
        at hrun
      exact absurd hrun (by simp)
    | ok pr =>
      rw [processCSVFile_loop_ok outcomes rows chunkSize jobId st st3 pr hloop]
        at hrun
      simp only [Prod.mk.injEq] at hrun
      obtain ⟨hst', -⟩ := hrun
      subst hst'
      have hinv2 : ∀ j2, findJob (totalChunksWrite jobId
          (splitCSVIntoChunks rows chunkSize).length
          (totalRowsWrite jobId rows.length st)).jobs jobId = some j2 →
          j2.totalRows = rows.length ∧ j2.processedRows ≤ rows.length := by
        intro j2 hj2
        simp only [totalChunksWrite, totalRowsWrite] at hj2
        rw [findJob_updateJob _ jobId
          (fun j => { j with
            totalChunks := (splitCSVIntoChunks rows chunkSize).length })
          (fun j => rfl)] at hj2
        rw [findJob_updateJob st.jobs jobId
          (fun j => { j with totalRows := rows.length, status := .RUNNING })
          (fun j => rfl)] at hj2
        rcases hfind0 : findJob st.jobs jobId with _ | j0
        · rw [hfind0] at hj2
          exact absurd hj2 (by simp)
        · rw [hfind0] at hj2
          simp only [Option.map_some'] at hj2
          injection hj2 with hj2e
          subst hj2e
          exact ⟨rfl, hinit j0 hfind0⟩
      have hinv3 := loop_inv outcomes jobId rows.length
        (splitCSVIntoChunks rows chunkSize) 0 0
        (totalChunksWrite jobId (splitCSVIntoChunks rows chunkSize).length
          (totalRowsWrite jobId rows.length st)) hinv2
      rw [hloop] at hinv3
      simp only [completeWrite] at hj'
      rw [findJob_updateJob st3.jobs jobId
        (fun j => { j with processedRows := rows.length,
                           status := .COMPLETED })
        (fun j => rfl)] at hj'
      rcases hfind3 : findJob st3.jobs jobId with _ | j3
      · rw [hfind3] at hj'
        exact absurd hj' (by simp)
      · rw [hfind3] at hj'
        simp only [Option.map_some'] at hj'
        injection hj' with hj'e
        subst hj'e
        exact ⟨rfl, (hinv3 j3 hfind3).1⟩

theorem processedRows_capped_witness :
    ∃ j2 : Job,
      findJob (progressWrite 1 0 500 300 stRunning).jobs 1 = some j2 ∧
      j2.processedRows = min 500 300 ∧ j2.processedRows ≤ 500 ∧
      j2.totalRows = runningJob1.totalRows :=
  ⟨{ runningJob1 with
       processedChunks := 1, lastProcessedChunk := 0, processedRows := 300 },
   by decide,
   (processedRows_capped (fun _ => .ok 0) [] 1 1 stRunning).1 0 500 300
     stRunning runningJob1
     { runningJob1 with
         processedChunks := 1, lastProcessedChunk := 0, processedRows := 300 }
     (by decide) (by decide)⟩
